import Mathlib

/-!
Shallow embedding of the metadata-to-source consistency validator and the
host/scheme header aggregation engine of `scripts/ccpp_capgen.py`.

Metadata and Fortran-source headers are modelled as records of strings and
string lists; the comparison, pairing and aggregation routines are translated
function by function from the Python source.  External collaborators (the
metadata table parser, the Fortran signature extractor, provenance rendering)
are represented by the data they deliver: a file is modelled by its parsed
header lists, and the known-derived-type list handed to each parse is recorded
so that visibility claims can be stated.
-/

namespace CcppCapgen

/-- Python `str.lower()`, character by character (the identifiers and
dimension names handled by the validator are ASCII). -/
def py_lower (s : String) : String := ⟨s.data.map Char.toLower⟩

/-- Python `c in s` for a single character. -/
def py_in (c : Char) (s : String) : Bool := s.data.any (fun x => x = c)

/-- Python `str.strip()`: remove leading and trailing whitespace. -/
def py_strip (s : String) : String :=
  ⟨((s.data.dropWhile Char.isWhitespace).reverse.dropWhile
      Char.isWhitespace).reverse⟩

/-- Helper for `py_split`: accumulate the current field (reversed) while
scanning. -/
def py_split_aux (c : Char) : List Char → List Char → List String
  | [], acc => [⟨acc.reverse⟩]
  | x :: xs, acc =>
      if x = c then ⟨acc.reverse⟩ :: py_split_aux c xs []
      else py_split_aux c xs (x :: acc)

/-- Python `str.split(sep)` for a single-character separator. -/
def py_split (c : Char) (s : String) : List String := py_split_aux c s.data []

/-- Python `sep.join(parts)`. -/
def py_join (sep : String) : List String → String
  | [] => ""
  | [x] => x
  | x :: xs => x ++ sep ++ py_join sep xs

/-- A metadata variable: one row of a metadata table.  `context` carries the
pre-rendered provenance string (`context_string(mvar.context)` in the source);
all other fields are the properties accessed through `get_prop_value`. -/
structure MVar where
  local_name : String
  standard_name : String
  type : String
  kind : String
  intent : String
  dimensions : List String
  context : String
deriving DecidableEq, Repr

/-- A Fortran-source variable as produced by the (external) signature
extractor.  Its dimensions are already converted to standard-name form. -/
structure FVar where
  local_name : String
  type : String
  kind : String
  intent : String
  dimensions : List String
deriving DecidableEq, Repr

/-- A metadata header.  `context_filename` is `header.context.filename`
(possibly absent); `start_context` is the rendered `start_context()` string. -/
structure MHeader where
  title : String
  header_type : String
  variable_list : List MVar
  context_filename : Option String
  start_context : String
deriving DecidableEq, Repr

/-- A Fortran-source header produced by `parse_fortran_file` (external). -/
structure FHeader where
  title : String
  header_type : String
  variable_list : List FVar
  has_variables : Bool
deriving DecidableEq, Repr

/-- Property lookup on a metadata variable, mirroring
`mvar.get_prop_value(prop_name)` for the property names the validator uses. -/
def MVar.get_prop_value (v : MVar) (p : String) : String :=
  if p = "local_name" then v.local_name
  else if p = "standard_name" then v.standard_name
  else if p = "type" then v.type
  else if p = "kind" then v.kind
  else if p = "intent" then v.intent
  else ""

/-- Property lookup on a Fortran variable, mirroring
`fvar.get_prop_value(prop_name)`. -/
def FVar.get_prop_value (v : FVar) (p : String) : String :=
  if p = "local_name" then v.local_name
  else if p = "type" then v.type
  else if p = "kind" then v.kind
  else if p = "intent" then v.intent
  else ""

/-- Metadata table types which can have extra variables in Fortran
(`_EXTRA_VARIABLE_TABLE_TYPES`). -/
def _EXTRA_VARIABLE_TABLE_TYPES : List String := ["module", "host", "ddt"]

/-- Metadata table types where order is significant (`_ORDERED_TABLE_TYPES`). -/
def _ORDERED_TABLE_TYPES : List String := ["scheme"]

/-- `add_error`: append `new_error` to `error_string`, separating errors by a
newline when `error_string` is nonempty. -/
def add_error (error_string new_error : String) : String :=
  (if error_string ≠ "" then error_string ++ "\n" else error_string) ++ new_error

/-- `is_arrayspec`: true iff `local_name` is an array reference
(`'(' in local_name`). -/
def is_arrayspec (local_name : String) : Bool :=
  py_in '(' local_name

/-- Helper for `find_var_in_list`: scan `var_list` from index `lind`,
comparing lower-cased local names against the (already lower-cased) `lname`. -/
def find_var_aux (lname : String) : Nat → List FVar → Option (FVar × Nat)
  | _, [] => none
  | lind, lvar :: rest =>
      if py_lower lvar.local_name = lname then some (lvar, lind)
      else find_var_aux lname (lind + 1) rest

/-- `find_var_in_list`: case-insensitive search of `var_list` for a variable
named `local_name`; returns the variable and the index where it was found
(`(None, -1)` in the source is modelled by `none`). -/
def find_var_in_list (local_name : String) (var_list : List FVar) :
    Option (FVar × Nat) :=
  find_var_aux (py_lower local_name) 0 var_list

/-- `context_string`: provenance rendering is external (`parse_tools`); the
context is carried as an already-rendered string, so this is the identity. -/
def context_string (ctx : String) : String := ctx

/-- `var_comp`: compare the property `prop_name` between a metadata and a
Fortran variable, lower-casing both sides unless `case_sensitive`. -/
def var_comp (prop_name : String) (mvar : MVar) (fvar : FVar) (title : String)
    (case_sensitive : Bool := false) : String :=
  let mprop := mvar.get_prop_value prop_name
  let fprop := fvar.get_prop_value prop_name
  let mprop := if case_sensitive then mprop else py_lower mprop
  let fprop := if case_sensitive then fprop else py_lower fprop
  if mprop = fprop then ""
  else
    add_error "" (prop_name ++ " mismatch (" ++ mprop ++ " != " ++ fprop ++
      ") in " ++ title ++ context_string mvar.context)

/-- Modelled from the spec: `mheader.convert_dims_to_standard_names(fvar)` is
a method of the external `MetadataTable`; the spec states that source-side
dimensions are delivered "already converted to standard-name form"
("pre-normalized to metadata vocabulary"), so the conversion is the identity
on the stored dimension list. -/
def convert_dims_to_standard_names (fvar : FVar) : List String :=
  fvar.dimensions

/-- The per-dimension loop of `dims_comp`: each metadata dimension has any
`lo:hi` range re-joined from stripped bounds, each Fortran dimension is
stripped and likewise re-joined, both are lower-cased unless `case_sensitive`,
and then the source's comparison `comp = fdim in (':', fdim)` is evaluated
verbatim.  The error message uses the normalized `mdim` and the original
`fdims[dim_ind]`, as in the source. -/
def dims_comp_loop (title stdname ctx : String) (case_sensitive : Bool) :
    Nat → List String → List String → String → String
  | _, [], _, errors => errors
  | _, _ :: _, [], errors => errors
  | dim_ind, mdim0 :: mrest, fdim0 :: frest, errors =>
      let mdim := if py_in ':' mdim0 then
          py_join ":" ((py_split ':' mdim0).map py_strip)
        else mdim0
      let fdim := py_strip fdim0
      let fdim := if py_in ':' fdim then
          py_join ":" ((py_split ':' fdim).map py_strip)
        else fdim
      let mdim := if case_sensitive then mdim else py_lower mdim
      let fdim := if case_sensitive then fdim else py_lower fdim
      -- Naked colon is okay for Fortran side
      let errors := if fdim = ":" ∨ fdim = fdim then errors
        else add_error errors ("Error: dim " ++ toString (dim_ind + 1) ++
          " mismatch (" ++ mdim ++ " != " ++ fdim0 ++ ") in " ++ title ++
          "/" ++ stdname ++ ctx)
      dims_comp_loop title stdname ctx case_sensitive (dim_ind + 1) mrest frest
        errors

/-- `dims_comp`: compare the dimensions attribute of two variables.  A rank
mismatch is reported at once; otherwise each dimension pair goes through
`dims_comp_loop`. -/
def dims_comp (mvar : MVar) (fvar : FVar) (title : String)
    (case_sensitive : Bool := false) : String :=
  let mdims := mvar.dimensions
  let fdims := convert_dims_to_standard_names fvar
  if mdims.length = fdims.length then
    dims_comp_loop title (mvar.get_prop_value "standard_name")
      (context_string mvar.context) case_sensitive 0 mdims fdims ""
  else
    add_error "" ("Error: rank mismatch in " ++ title ++ "/" ++
      mvar.get_prop_value "standard_name" ++ " (" ++ toString mdims.length ++
      " != " ++ toString fdims.length ++ ")" ++ context_string mvar.context)

/-- Structured rendering of the `CCPPError` raise sites of the validator and
aggregator; `message` below recovers the exact formatted message text. -/
inductive CapgenError where
  | typeMismatch (title mht fht ctx : String)
  | noFortranRoutine (mtitle ffilename : String)
  | noMetadataHeader (msg : String)
  | consistency (errors_found : String) (num_errors : Nat)
      (mfilename ffilename : String)
  | duplicateHeader (typ title filename : String) (ofile : Option String)
deriving DecidableEq, Repr

/-- The formatted message of each `CCPPError` raise, following the source's
format strings. -/
def CapgenError.message : CapgenError → String
  | .typeMismatch title mht fht ctx =>
      "Metadata table type mismatch for " ++ title ++ ", " ++ mht ++ " != " ++
        fht ++ ctx
  | .noFortranRoutine mtitle ffilename =>
      "No matching Fortran routine found for " ++ mtitle ++ " in " ++ ffilename
  | .noMetadataHeader msg => msg
  | .consistency errors_found num_errors mfilename ffilename =>
      errors_found ++ ("\n" ++ toString num_errors ++ " error" ++
        (if 1 < num_errors then "s" else "") ++ " found comparing " ++
        (mfilename ++ (" to " ++ ffilename)))
  | .duplicateHeader typ title filename ofile =>
      "Duplicate " ++ typ ++ ", " ++ title ++ ", found in " ++ filename ++
        (match ofile with
          | some o => ", original found in " ++ o
          | none => "")

/-- The arity-reconciliation step of `compare_fheader_to_mheader` (the
`list_match`/`etype` block): `mlen` is the metadata variable count with array
references removed, `flen` the Fortran variable count. -/
def arity_check (fht title : String) (mlen flen : Nat) : String :=
  if mlen = flen then ""
  else if fht ∈ _EXTRA_VARIABLE_TABLE_TYPES then
    (if flen > mlen then ""
     else add_error "" ("Variable mismatch in " ++ title ++
       ", variables missing from Fortran " ++ fht ++ "."))
  else if flen > mlen then
    add_error "" ("Variable mismatch in " ++ title ++
      ", variables missing from metadata header.")
  else
    add_error "" ("Variable mismatch in " ++ title ++
      ", variables missing from Fortran " ++ fht ++ ".")

/-- One iteration of the per-metadata-variable loop of
`compare_fheader_to_mheader` (the body of `for mind, mvar in enumerate(mlist)`),
producing the updated `errors_found`.  Each branch mirrors the source: the
`mind >= flen` block, the missing-Fortran-variable report, the order check for
ordered (scheme) tables, the array-reference skip, and the
`local_name`/`type`/`kind`/`intent`/dimension comparisons. -/
def compare_var_step (mht fht title : String) (flist : List FVar)
    (flen mind : Nat) (mvar : MVar) (errors_found : String) : String :=
  let lname := mvar.get_prop_value "local_name"
  let arrayref := is_arrayspec lname
  let found := find_var_in_list lname flist
  if mind ≥ flen then
    if arrayref then
      -- Array reference, variable not in Fortran table
      errors_found
    else
      match found with
      | none =>
          add_error errors_found
            ("No Fortran variable for " ++ lname ++ " in " ++ title)
      | some _ => errors_found
  else
    -- At this point, we should have a Fortran variable
    match found with
    | none =>
        add_error errors_found ("Variable mismatch in " ++ title ++
          ", no Fortran variable " ++ lname ++ ".")
    | some (fvar, find) =>
        -- Check order dependence
        if fht ∈ _ORDERED_TABLE_TYPES ∧ find ≠ mind then
          add_error errors_found
            ("Out of order argument, " ++ lname ++ " in " ++ title)
        else if arrayref then
          -- Array reference, do not look for this in Fortran table
          errors_found
        else
          let errs := var_comp "local_name" mvar fvar title
          if errs ≠ "" then add_error errors_found errs
          else
            let errors_found :=
              let errs := var_comp "type" mvar fvar title
              if errs ≠ "" then add_error errors_found errs
              else errors_found
            let errors_found :=
              let errs := var_comp "kind" mvar fvar title
              if errs ≠ "" then add_error errors_found errs
              else errors_found
            let errors_found :=
              if mht = "scheme" then
                let errs := var_comp "intent" mvar fvar title
                if errs ≠ "" then add_error errors_found errs
                else errors_found
              else errors_found
            -- Compare dimensions
            let errs := dims_comp mvar fvar title
            if errs ≠ "" then add_error errors_found errs
            else errors_found

/-- The per-metadata-variable loop of `compare_fheader_to_mheader`, iterating
over `mlist` with running index `mind`, threading `errors_found` through
`compare_var_step`. -/
def compare_var_loop (mht fht title : String) (flist : List FVar)
    (flen : Nat) : Nat → List MVar → String → String
  | _, [], errors_found => errors_found
  | mind, mvar :: mrest, errors_found =>
      compare_var_loop mht fht title flist flen (mind + 1) mrest
        (compare_var_step mht fht title flist flen mind mvar errors_found)

/-- `compare_fheader_to_mheader`: compare a metadata header against the
header generated from the corresponding Fortran code.  A header-type mismatch
(outside the host/module-or-scheme exception) raises; otherwise the
accumulated error string is returned (`.ok ""` means no errors). -/
def compare_fheader_to_mheader (meta_header : MHeader) (fort_header : FHeader) :
    Except CapgenError String :=
  let title := meta_header.title
  let mht := meta_header.header_type
  let fht := fort_header.header_type
  if mht ≠ fht then
    -- Special case, host metadata can be in a Fortran module or scheme
    if mht ≠ "host" ∨ (fht ≠ "module" ∧ fht ≠ "scheme") then
      .error (.typeMismatch title mht fht meta_header.start_context)
    else
      .ok ""
  else
    let mlist := meta_header.variable_list
    let flist := fort_header.variable_list
    let flen := flist.length
    -- Remove array references from mlist before checking lengths
    let mlen := mlist.length -
      mlist.countP (fun mvar => is_arrayspec (mvar.get_prop_value "local_name"))
    let errors_found := arity_check fht title mlen flen
    .ok (compare_var_loop mht fht title flist flen 0 mlist errors_found)

/-- Remove the first Fortran header whose title equals `mtitle`, returning it
together with the remaining list (`fort_headers.pop(findex)` after the scan in
`check_fortran_against_metadata`). -/
def pop_header (mtitle : String) : List FHeader → Option (FHeader × List FHeader)
  | [] => none
  | fh :: rest =>
      if fh.title = mtitle then some (fh, rest)
      else
        match pop_header mtitle rest with
        | some (g, rest') => some (g, fh :: rest')
        | none => none

/-- The pairing loop of `check_fortran_against_metadata`: each metadata header
consumes the first remaining Fortran header with the same title; a metadata
header with no match raises `No matching Fortran routine found`.  Returns the
association (in metadata order) and the unconsumed Fortran headers. -/
def pair_headers (ffilename : String) :
    List MHeader → List FHeader →
    Except CapgenError (List (MHeader × FHeader) × List FHeader)
  | [], fort_headers => .ok ([], fort_headers)
  | mheader :: mrest, fort_headers =>
      match pop_header mheader.title fort_headers with
      | none => .error (.noFortranRoutine mheader.title ffilename)
      | some (fheader, rest) =>
          match pair_headers ffilename mrest rest with
          | .ok (assoc, leftover) => .ok ((mheader, fheader) :: assoc, leftover)
          | .error e => .error e

/-- The leftover scan of `check_fortran_against_metadata`: accumulate a
`No matching metadata header found` line for every unconsumed Fortran header
that has variables, with `sep` switching to a newline after the first. -/
def unmatched_loop (mfilename : String) :
    List FHeader → String → String → String
  | [], errmsg, _ => errmsg
  | fheader :: rest, errmsg, sep =>
      if fheader.has_variables then
        unmatched_loop mfilename rest
          (errmsg ++ sep ++ "No matching metadata header found for " ++
            fheader.title ++ " in " ++ mfilename) "\n"
      else
        unmatched_loop mfilename rest errmsg sep

/-- The full leftover message for the unconsumed Fortran headers. -/
def unmatched_msg (mfilename : String) (fort_headers : List FHeader) : String :=
  unmatched_loop mfilename fort_headers "" ""

/-- The comparison phase of `check_fortran_against_metadata`:
`errors_found += compare_fheader_to_mheader(...)` over the association, with
any header-type raise propagating. -/
def concat_compare : List (MHeader × FHeader) → Except CapgenError String
  | [] => .ok ""
  | (mheader, fheader) :: rest =>
      match compare_fheader_to_mheader mheader fheader with
      | .error e => .error e
      | .ok errs =>
          match concat_compare rest with
          | .error e => .error e
          | .ok more => .ok (errs ++ more)

/-- `len(re.findall('\n', s))`: the number of newline characters in `s`. -/
def count_newlines (s : String) : Nat :=
  s.toList.countP (fun c => c = '\n')

/-- `check_fortran_against_metadata`: pair the metadata headers of
`mfilename` with the Fortran headers of `ffilename`, raise for any metadata
header with no Fortran routine, raise for leftover Fortran headers that have
variables, then compare every pair, raising one consistency error carrying
the concatenated diagnostics when any are found.  On success the association
is returned. -/
def check_fortran_against_metadata (meta_headers : List MHeader)
    (fort_headers : List FHeader) (mfilename ffilename : String) :
    Except CapgenError (List (MHeader × FHeader)) :=
  match pair_headers ffilename meta_headers fort_headers with
  | .error e => .error e
  | .ok (assoc, leftover) =>
      let errmsg := unmatched_msg mfilename leftover
      if errmsg ≠ "" then .error (.noMetadataHeader errmsg)
      else
        match concat_compare assoc with
        | .error e => .error e
        | .ok errors_found =>
            if errors_found ≠ "" then
              .error (.consistency errors_found (count_newlines errors_found + 1)
                mfilename ffilename)
            else .ok assoc

/-- Modelled from the spec: `MetadataTable.parse_metadata_file` and
`parse_fortran_file` are external, and `find_associated_fortran_file` probes
the filesystem; a file is therefore represented by its name, its associated
Fortran file's name, and the two parsed header lists those collaborators
deliver.  The `known_ddts` list passed to each metadata parse is recorded in
the run traces below. -/
structure PFile where
  filename : String
  fort_filename : String
  mheaders : List MHeader
  fheaders : List FHeader
deriving DecidableEq, Repr

/-- Association-list lookup modelling `meta_headers[title]` /
`header_dict[title]` on the Python dicts. -/
def lookup_header (title : String) :
    List (String × MHeader) → Option MHeader
  | [] => none
  | (t, h) :: rest => if t = title then some h else lookup_header title rest

/-- The per-header registration step of `parse_host_model_files`: a fresh
title is added to the dict (and, for a ddt, appended to `known_ddts`); a title
already present raises the duplicate-header error naming the original file
when known. -/
def register_host_header (meta_headers : List (String × MHeader))
    (known_ddts : List String) (filename : String) (header : MHeader) :
    Except CapgenError (List (String × MHeader) × List String) :=
  match lookup_header header.title meta_headers with
  | none =>
      .ok (meta_headers ++ [(header.title, header)],
        if header.header_type = "ddt" then known_ddts ++ [header.title]
        else known_ddts)
  | some oheader =>
      .error (.duplicateHeader header.header_type header.title filename
        oheader.context_filename)

/-- Fold `register_host_header` over one file's metadata headers. -/
def register_host_headers (st : List (String × MHeader) × List String)
    (filename : String) : List MHeader →
    Except CapgenError (List (String × MHeader) × List String)
  | [] => .ok st
  | header :: rest =>
      match register_host_header st.1 st.2 filename header with
      | .error e => .error e
      | .ok st' => register_host_headers st' filename rest

/-- The host-file loop of `parse_host_model_files`, started from an arbitrary
state.  For each file, the metadata parse receives the current `known_ddts`
(recorded as a trace entry `(filename, known_ddts)`), the file is validated by
`check_fortran_against_metadata`, and its headers are registered. -/
def parse_host_model_files_from (meta_headers : List (String × MHeader))
    (known_ddts : List String) : List PFile →
    Except CapgenError ((List (String × MHeader) × List String) ×
      List (String × List String))
  | [] => .ok ((meta_headers, known_ddts), [])
  | file :: rest =>
      match check_fortran_against_metadata file.mheaders file.fheaders
          file.filename file.fort_filename with
      | .error e => .error e
      | .ok _assoc =>
          match register_host_headers (meta_headers, known_ddts) file.filename
              file.mheaders with
          | .error e => .error e
          | .ok st' =>
              match parse_host_model_files_from st'.1 st'.2 rest with
              | .error e => .error e
              | .ok (final, tr) =>
                  .ok (final, (file.filename, known_ddts) :: tr)

/-- `parse_host_model_files`: the host pass starts with an empty header dict
and an empty `known_ddts` list. -/
def parse_host_model_files (host_files : List PFile) :
    Except CapgenError ((List (String × MHeader) × List String) ×
      List (String × List String)) :=
  parse_host_model_files_from [] [] host_files

/-- The running state of `parse_scheme_files`: the ordered header sequence,
the duplicate-checking dict, and the scheme pass's own `known_ddts`. -/
structure SchemeState where
  meta_headers : List MHeader
  header_dict : List (String × MHeader)
  known_ddts : List String
deriving DecidableEq, Repr

/-- The per-header registration step of `parse_scheme_files`: a duplicate
title in the scheme dict raises; otherwise the header is appended to the
ordered sequence and the dict, and a ddt title to `known_ddts`. -/
def register_scheme_header (st : SchemeState) (filename : String)
    (header : MHeader) : Except CapgenError SchemeState :=
  match lookup_header header.title st.header_dict with
  | some oheader =>
      .error (.duplicateHeader header.header_type header.title filename
        oheader.context_filename)
  | none =>
      .ok { meta_headers := st.meta_headers ++ [header],
            header_dict := st.header_dict ++ [(header.title, header)],
            known_ddts :=
              if header.header_type = "ddt" then st.known_ddts ++ [header.title]
              else st.known_ddts }

/-- Fold `register_scheme_header` over one file's metadata headers. -/
def register_scheme_headers (st : SchemeState) (filename : String) :
    List MHeader → Except CapgenError SchemeState
  | [] => .ok st
  | header :: rest =>
      match register_scheme_header st filename header with
      | .error e => .error e
      | .ok st' => register_scheme_headers st' filename rest

/-- The scheme-file loop of `parse_scheme_files`, started from an arbitrary
state, with the same trace of `(filename, known_ddts passed)` entries. -/
def parse_scheme_files_from (st : SchemeState) : List PFile →
    Except CapgenError (SchemeState × List (String × List String))
  | [] => .ok (st, [])
  | file :: rest =>
      match check_fortran_against_metadata file.mheaders file.fheaders
          file.filename file.fort_filename with
      | .error e => .error e
      | .ok _assoc =>
          match register_scheme_headers st file.filename file.mheaders with
          | .error e => .error e
          | .ok st' =>
              match parse_scheme_files_from st' rest with
              | .error e => .error e
              | .ok (final, tr) =>
                  .ok (final, (file.filename, st.known_ddts) :: tr)

/-- `parse_scheme_files`: the scheme pass starts with empty sequence, dict,
and — independently of any host pass — an empty `known_ddts` list. -/
def parse_scheme_files (scheme_files : List PFile) :
    Except CapgenError (SchemeState × List (String × List String)) :=
  parse_scheme_files_from ⟨[], [], []⟩ scheme_files

/-- The parsing portion of `capgen`: all host files are processed first, then
all scheme files; the traces record the `known_ddts` passed to every
metadata parse of the run, in processing order. -/
def capgen_parse (host_files scheme_files : List PFile) :
    Except CapgenError (((List (String × MHeader) × List String) ×
      List (String × List String)) ×
      (SchemeState × List (String × List String))) :=
  match parse_host_model_files host_files with
  | .error e => .error e
  | .ok hostr =>
      match parse_scheme_files scheme_files with
      | .error e => .error e
      | .ok schemer => .ok (hostr, schemer)

/-- Whether a run step succeeded (no `CCPPError` raised). -/
def except_ok {α : Type} : Except CapgenError α → Bool
  | .ok _ => true
  | .error _ => false

/-- "Identical in name, type, kind, intent, and dimensions": the pointwise
correspondence between a metadata variable and a source variable used to state
the identical-header claims. -/
def fields_match (mvar : MVar) (fvar : FVar) : Prop :=
  mvar.local_name = fvar.local_name ∧ mvar.type = fvar.type ∧
  mvar.kind = fvar.kind ∧ mvar.intent = fvar.intent ∧
  mvar.dimensions = fvar.dimensions

/-- Build a metadata variable fixture with the given name, type, dimensions
and intent. -/
def mkMVar (name ty : String) (dims : List String := [])
    (intent : String := "") : MVar :=
  { local_name := name, standard_name := name, type := ty, kind := "",
    intent := intent, dimensions := dims, context := "" }

/-- Build a Fortran variable fixture with the given name, type, dimensions
and intent. -/
def mkFVar (name ty : String) (dims : List String := [])
    (intent : String := "") : FVar :=
  { local_name := name, type := ty, kind := "", intent := intent,
    dimensions := dims }

/-- Fixture: a ddt metadata header `state_type` declared by a host file. -/
def stateTypeMH : MHeader :=
  { title := "state_type", header_type := "ddt", variable_list := [],
    context_filename := some "host.meta", start_context := "" }

/-- Fixture: the Fortran side of the `state_type` ddt. -/
def stateTypeFH : FHeader :=
  { title := "state_type", header_type := "ddt", variable_list := [],
    has_variables := false }

/-- Fixture: a host file declaring the ddt `state_type`. -/
def hostDdtFile : PFile :=
  { filename := "host.meta", fort_filename := "host.F90",
    mheaders := [stateTypeMH], fheaders := [stateTypeFH] }

/-- Fixture: a scheme metadata header processed after the host files. -/
def schemeRunMH : MHeader :=
  { title := "scheme_run", header_type := "scheme", variable_list := [],
    context_filename := some "scheme.meta", start_context := "" }

/-- Fixture: the Fortran side of `scheme_run`. -/
def schemeRunFH : FHeader :=
  { title := "scheme_run", header_type := "scheme", variable_list := [],
    has_variables := false }

/-- Fixture: a scheme file processed after `hostDdtFile`. -/
def schemeUserFile : PFile :=
  { filename := "scheme.meta", fort_filename := "scheme.F90",
    mheaders := [schemeRunMH], fheaders := [schemeRunFH] }

/-- Fixture: a host-side metadata header titled `foo`. -/
def fooHostMH : MHeader :=
  { title := "foo", header_type := "module", variable_list := [],
    context_filename := some "host_foo.meta", start_context := "" }

/-- Fixture: the Fortran module backing `fooHostMH`. -/
def fooHostFH : FHeader :=
  { title := "foo", header_type := "module", variable_list := [],
    has_variables := false }

/-- Fixture: a host file registering the title `foo`. -/
def hostFileFoo : PFile :=
  { filename := "host_foo.meta", fort_filename := "host_foo.F90",
    mheaders := [fooHostMH], fheaders := [fooHostFH] }

/-- Fixture: a scheme-side metadata header also titled `foo`. -/
def fooSchemeMH : MHeader :=
  { title := "foo", header_type := "scheme", variable_list := [],
    context_filename := some "scheme_foo.meta", start_context := "" }

/-- Fixture: the Fortran scheme backing `fooSchemeMH`. -/
def fooSchemeFH : FHeader :=
  { title := "foo", header_type := "scheme", variable_list := [],
    has_variables := false }

/-- Fixture: a scheme file registering the title `foo` again. -/
def schemeFileFoo : PFile :=
  { filename := "scheme_foo.meta", fort_filename := "scheme_foo.F90",
    mheaders := [fooSchemeMH], fheaders := [fooSchemeFH] }

/-- Fixture: a second host metadata header titled `foo`, from another file. -/
def fooHostMH2 : MHeader :=
  { title := "foo", header_type := "module", variable_list := [],
    context_filename := some "host_foo2.meta", start_context := "" }

/-- Fixture: a second scheme metadata header titled `foo`. -/
def fooSchemeMH2 : MHeader :=
  { title := "foo", header_type := "scheme", variable_list := [],
    context_filename := some "scheme_foo2.meta", start_context := "" }

/-- Fixture: a scheme metadata header identical to its source counterpart. -/
def identMH : MHeader :=
  { title := "ok_scheme", header_type := "scheme",
    variable_list := [mkMVar "a" "real" ["horizontal_dimension"] "in",
      mkMVar "b" "integer" [] "inout"],
    context_filename := none, start_context := "" }

/-- Fixture: the source side identical to `identMH`. -/
def identFH : FHeader :=
  { title := "ok_scheme", header_type := "scheme",
    variable_list := [mkFVar "a" "real" ["horizontal_dimension"] "in",
      mkFVar "b" "integer" [] "inout"],
    has_variables := true }

/-- Fixture: scheme metadata header whose two variables are swapped relative
to the Fortran argument order. -/
def swapMH : MHeader :=
  { title := "swap_scheme", header_type := "scheme",
    variable_list := [mkMVar "b" "real" [] "in", mkMVar "a" "real" [] "in"],
    context_filename := none, start_context := "" }

/-- Fixture: the Fortran side of `swap_scheme`, arguments in declared order. -/
def swapFH : FHeader :=
  { title := "swap_scheme", header_type := "scheme",
    variable_list := [mkFVar "a" "real" [] "in", mkFVar "b" "real" [] "in"],
    has_variables := true }

/-- Fixture: a host metadata header whose first variable is an
array-subscript reference `x(1)` of the array `x`. -/
def arrayrefMH : MHeader :=
  { title := "arr_host", header_type := "host",
    variable_list := [mkMVar "x(1)" "real", mkMVar "x" "real"],
    context_filename := none, start_context := "" }

/-- Fixture: the Fortran side of `arr_host`, declaring only the array `x`. -/
def arrayrefFH : FHeader :=
  { title := "arr_host", header_type := "host",
    variable_list := [mkFVar "x" "real"], has_variables := true }

/-- Fixture: Scenario C metadata — a scheme listing 2 variables. -/
def scenarioCMH : MHeader :=
  { title := "scheme_c", header_type := "scheme",
    variable_list := [mkMVar "a" "real" [] "in", mkMVar "b" "real" [] "in"],
    context_filename := none, start_context := "" }

/-- Fixture: Scenario C source — the scheme declares 3 real arguments. -/
def scenarioCFH : FHeader :=
  { title := "scheme_c", header_type := "scheme",
    variable_list := [mkFVar "a" "real" [] "in", mkFVar "b" "real" [] "in",
      mkFVar "c" "real" [] "in"],
    has_variables := true }

/-- Fixture: scheme header pair whose single variable is the array-subscript
reference `x(1)` on both sides, with all fields identical. -/
def identicalArrMH : MHeader :=
  { title := "t2", header_type := "scheme",
    variable_list := [mkMVar "x(1)" "real" [] "in"],
    context_filename := none, start_context := "" }

/-- Fixture: the source side identical to `identicalArrMH`. -/
def identicalArrFH : FHeader :=
  { title := "t2", header_type := "scheme",
    variable_list := [mkFVar "x(1)" "real" [] "in"], has_variables := true }

/-- Fixture: a host metadata header paired with a Fortran module whose
variable lists differ arbitrarily (for the tolerated-exception claim). -/
def hostExcMH : MHeader :=
  { title := "h1", header_type := "host",
    variable_list := [mkMVar "z" "integer"],
    context_filename := none, start_context := "" }

/-- Fixture: the Fortran module paired with `hostExcMH`. -/
def moduleExcFH : FHeader :=
  { title := "h1", header_type := "module", variable_list := [],
    has_variables := true }

theorem dims_comp_loop_eq (title stdname ctx : String) (cs : Bool) :
    ∀ (mdims : List String) (dim_ind : Nat) (fdims : List String) (e : String),
      dims_comp_loop title stdname ctx cs dim_ind mdims fdims e = e := by
  intro mdims
  induction mdims with
  | nil => intro dim_ind fdims e; cases fdims <;> rfl
  | cons m mrest ih =>
      intro dim_ind fdims e
      cases fdims with
      | nil => rfl
      | cons f frest =>
          simp only [dims_comp_loop]
          rw [if_pos (Or.inr trivial)]
          exact ih _ _ _

theorem dims_comp_rank_eq (mvar : MVar) (fvar : FVar) (title : String)
    (h : mvar.dimensions.length = fvar.dimensions.length) :
    dims_comp mvar fvar title = "" := by
  simp only [dims_comp, convert_dims_to_standard_names]
  rw [if_pos h]
  exact dims_comp_loop_eq _ _ _ _ _ _ _ _

theorem add_error_eq_append (e x : String) : ∃ s, add_error e x = e ++ s := by
  unfold add_error
  by_cases h : e = ""
  · exact ⟨x, by rw [if_neg (by simp [h])]⟩
  · exact ⟨"\n" ++ x, by rw [if_pos h, String.append_assoc]⟩

theorem ext_add {e E x : String} (h : ∃ s, E = e ++ s) :
    ∃ s, add_error E x = e ++ s := by
  obtain ⟨s, rfl⟩ := h
  obtain ⟨t, ht⟩ := add_error_eq_append (e ++ s) x
  exact ⟨s ++ t, by rw [ht, String.append_assoc]⟩

theorem cond_add_ext (b : Prop) [Decidable b] {e e' : String} (x : String)
    (h : ∃ s, e' = e ++ s) :
    ∃ s, (if b then add_error e' x else e') = e ++ s := by
  split
  · exact ext_add h
  · exact h

theorem ite_str_ext (b : Prop) [Decidable b] {e E1 E2 : String}
    (h1 : ∃ s, E1 = e ++ s) (h2 : ∃ s, E2 = e ++ s) :
    ∃ s, (if b then E1 else E2) = e ++ s := by
  split
  · exact h1
  · exact h2

set_option maxHeartbeats 1000000 in
theorem compare_var_step_ext (mht fht title : String) (flist : List FVar)
    (flen mind : Nat) (mvar : MVar) (e : String) :
    ∃ s, compare_var_step mht fht title flist flen mind mvar e = e ++ s := by
  have base : ∃ s, e = e ++ s := ⟨"", (String.append_empty e).symm⟩
  simp only [compare_var_step]
  split
  · split
    · exact base
    · split
      · exact ext_add base
      · exact base
  · split
    · exact ext_add base
    · split
      · exact ext_add base
      · split
        · exact base
        · split
          · exact ext_add base
          · apply cond_add_ext
            apply ite_str_ext
            · apply cond_add_ext
              apply cond_add_ext
              apply cond_add_ext
              exact base
            · apply cond_add_ext
              apply cond_add_ext
              exact base

theorem compare_var_loop_ext (mht fht title : String) (flist : List FVar)
    (flen : Nat) :
    ∀ (mlist : List MVar) (mind : Nat) (e : String),
      ∃ s, compare_var_loop mht fht title flist flen mind mlist e = e ++ s := by
  intro mlist
  induction mlist with
  | nil => intro mind e; exact ⟨"", (String.append_empty e).symm⟩
  | cons m rest ih =>
      intro mind e
      obtain ⟨s1, h1⟩ := compare_var_step_ext mht fht title flist flen mind m e
      obtain ⟨s2, h2⟩ :=
        ih (mind + 1) (compare_var_step mht fht title flist flen mind m e)
      refine ⟨s1 ++ s2, ?_⟩
      simp only [compare_var_loop]
      rw [h2, h1, String.append_assoc]

theorem add_error_nil (x : String) : add_error "" x = x := by
  unfold add_error
  rw [if_neg (by simp)]
  exact String.empty_append x

theorem eq_empty_of_length_zero {s : String} (h : s.length = 0) : s = "" := by
  obtain ⟨data⟩ := s
  cases data with
  | nil => rfl
  | cons c cs => simp [String.length] at h

theorem append_ne_empty_right (a : String) {b : String} (hb : b ≠ "") :
    a ++ b ≠ "" := by
  intro he
  have hl := congrArg String.length he
  rw [String.length_append, String.length_empty] at hl
  exact hb (eq_empty_of_length_zero (by omega))

theorem append_ne_empty_left {a : String} (b : String) (ha : a ≠ "") :
    a ++ b ≠ "" := by
  intro he
  have hl := congrArg String.length he
  rw [String.length_append, String.length_empty] at hl
  exact ha (eq_empty_of_length_zero (by omega))

theorem mvar_get_local_name (v : MVar) :
    v.get_prop_value "local_name" = v.local_name := rfl

theorem mvar_get_type (v : MVar) : v.get_prop_value "type" = v.type := rfl

theorem mvar_get_kind (v : MVar) : v.get_prop_value "kind" = v.kind := rfl

theorem mvar_get_intent (v : MVar) : v.get_prop_value "intent" = v.intent := rfl

theorem fvar_get_local_name (v : FVar) :
    v.get_prop_value "local_name" = v.local_name := rfl

theorem fvar_get_type (v : FVar) : v.get_prop_value "type" = v.type := rfl

theorem fvar_get_kind (v : FVar) : v.get_prop_value "kind" = v.kind := rfl

theorem fvar_get_intent (v : FVar) : v.get_prop_value "intent" = v.intent := rfl

theorem var_comp_empty (p : String) (mvar : MVar) (fvar : FVar) (t : String)
    (h : py_lower (mvar.get_prop_value p) = py_lower (fvar.get_prop_value p)) :
    var_comp p mvar fvar t = "" := by
  simp only [var_comp, Bool.false_eq_true, if_false]
  rw [if_pos h]

set_option maxHeartbeats 1000000 in
theorem compare_var_step_found_ok (mht fht title : String) (flist : List FVar)
    (flen mind : Nat) (mvar : MVar) (fvar : FVar) (e : String)
    (hfind : find_var_in_list mvar.local_name flist = some (fvar, mind))
    (hlt : mind < flen)
    (harr : is_arrayspec mvar.local_name = false)
    (hname : py_lower mvar.local_name = py_lower fvar.local_name)
    (hty : py_lower mvar.type = py_lower fvar.type)
    (hk : py_lower mvar.kind = py_lower fvar.kind)
    (hint : py_lower mvar.intent = py_lower fvar.intent)
    (hdim : mvar.dimensions.length = fvar.dimensions.length) :
    compare_var_step mht fht title flist flen mind mvar e = e := by
  simp only [compare_var_step, mvar_get_local_name]
  rw [if_neg (by omega : ¬ mind ≥ flen)]
  simp only [hfind]
  rw [if_neg (fun hc => hc.2 rfl)]
  rw [harr]
  simp only [Bool.false_eq_true, if_false]
  rw [var_comp_empty "local_name" mvar fvar title
    (by simpa [mvar_get_local_name, fvar_get_local_name] using hname)]
  rw [var_comp_empty "type" mvar fvar title
    (by simpa [mvar_get_type, fvar_get_type] using hty)]
  rw [var_comp_empty "kind" mvar fvar title
    (by simpa [mvar_get_kind, fvar_get_kind] using hk)]
  rw [var_comp_empty "intent" mvar fvar title
    (by simpa [mvar_get_intent, fvar_get_intent] using hint)]
  rw [dims_comp_rank_eq mvar fvar title hdim]
  simp

set_option maxHeartbeats 1000000 in
theorem compare_var_step_order (mht fht title : String) (flist : List FVar)
    (flen mind oind : Nat) (mvar : MVar) (fvar : FVar) (e : String)
    (hfind : find_var_in_list mvar.local_name flist = some (fvar, oind))
    (hlt : mind < flen) (hne : oind ≠ mind)
    (hord : fht ∈ _ORDERED_TABLE_TYPES) :
    compare_var_step mht fht title flist flen mind mvar e =
      add_error e ("Out of order argument, " ++ mvar.local_name ++ " in " ++
        title) := by
  simp only [compare_var_step, mvar_get_local_name]
  rw [if_neg (by omega : ¬ mind ≥ flen)]
  simp only [hfind]
  rw [if_pos ⟨hord, hne⟩]

theorem find_var_aux_append (l : String) :
    ∀ (pre : List FVar) (fv : FVar) (post : List FVar) (i : Nat),
      (∀ p ∈ pre, py_lower p.local_name ≠ l) → py_lower fv.local_name = l →
      find_var_aux l i (pre ++ fv :: post) = some (fv, i + pre.length) := by
  intro pre
  induction pre with
  | nil =>
      intro fv post i hpre hfv
      simp [find_var_aux, hfv]
  | cons p ps ih =>
      intro fv post i hpre hfv
      simp only [List.cons_append, find_var_aux]
      rw [if_neg (hpre p (List.mem_cons_self p ps))]
      simp only [List.append_eq]
      rw [ih fv post (i + 1) (fun q hq => hpre q (List.mem_cons_of_mem p hq))
        hfv]
      simp only [List.length_cons, Option.some.injEq, Prod.mk.injEq,
        eq_self_iff_true, true_and]
      omega

theorem find_var_in_list_at (lname : String) (pre : List FVar) (fv : FVar)
    (post : List FVar)
    (hpre : ∀ p ∈ pre, py_lower p.local_name ≠ py_lower lname)
    (hfv : py_lower fv.local_name = py_lower lname) :
    find_var_in_list lname (pre ++ fv :: post) = some (fv, pre.length) := by
  unfold find_var_in_list
  rw [find_var_aux_append (py_lower lname) pre fv post 0 hpre hfv]
  simp

theorem compare_var_loop_matching (ht title : String) (flist : List FVar)
    (hnd : flist.Pairwise
      (fun a b => py_lower a.local_name ≠ py_lower b.local_name)) :
    ∀ (msuffix : List MVar) (fsuffix fpre : List FVar) (e : String),
      flist = fpre ++ fsuffix →
      List.Forall₂ fields_match msuffix fsuffix →
      (∀ mv ∈ msuffix, is_arrayspec mv.local_name = false) →
      compare_var_loop ht ht title flist flist.length fpre.length msuffix e =
        e := by
  intro msuffix
  induction msuffix with
  | nil => intro fsuffix fpre e heq hf harr; rfl
  | cons m ms ih =>
      intro fsuffix fpre e heq hf harr
      cases hf with
      | cons rel tail =>
        rename_i fv fs
        have heq' : flist = fpre ++ fv :: fs := heq
        have hstep :
            compare_var_step ht ht title flist flist.length fpre.length m e =
              e := by
          apply compare_var_step_found_ok
          · rw [heq']
            apply find_var_in_list_at
            · intro p hp
              have hsplit := List.pairwise_append.mp (heq' ▸ hnd)
              have hcross := hsplit.2.2 p hp fv (List.mem_cons_self fv fs)
              rw [rel.1]
              exact hcross
            · rw [rel.1]
          · rw [heq']
            simp [List.length_append]
          · exact harr m (List.mem_cons_self m ms)
          · rw [rel.1]
          · rw [rel.2.1]
          · rw [rel.2.2.1]
          · rw [rel.2.2.2.1]
          · rw [rel.2.2.2.2]
        simp only [compare_var_loop]
        rw [hstep]
        have hrec := ih fs (fpre ++ [fv]) e
          (by rw [heq']; simp)
          tail
          (fun mv hmv => harr mv (List.mem_cons_of_mem m hmv))
        simpa using hrec

/-- Claim C7 (amended) — for pairs with equal header_type and variable lists
identical in name, type, kind, intent and dimensions (in order), compare
returns the empty diagnostic, provided the local names are pairwise distinct
case-insensitively and none is an array-subscript reference. -/
theorem compare_identical_headers_empty (mh : MHeader) (fh : FHeader)
    (hht : mh.header_type = fh.header_type)
    (hvars : List.Forall₂ fields_match mh.variable_list fh.variable_list)
    (hnd : fh.variable_list.Pairwise
      (fun a b => py_lower a.local_name ≠ py_lower b.local_name))
    (harr : ∀ mv ∈ mh.variable_list, is_arrayspec mv.local_name = false) :
    compare_fheader_to_mheader mh fh = .ok "" := by
  simp only [compare_fheader_to_mheader, hht]
  rw [if_neg (by simp)]
  have hcount : mh.variable_list.countP
      (fun mvar => is_arrayspec (mvar.get_prop_value "local_name")) = 0 := by
    rw [List.countP_eq_zero]
    intro mv hmv
    simp [mvar_get_local_name, harr mv hmv]
  have hlen : mh.variable_list.length = fh.variable_list.length :=
    hvars.length_eq
  rw [hcount]
  have harity : arity_check fh.header_type mh.title
      (mh.variable_list.length - 0) fh.variable_list.length = "" := by
    unfold arity_check
    rw [if_pos (by omega)]
  rw [harity]
  have hloop := compare_var_loop_matching fh.header_type mh.title
    fh.variable_list hnd mh.variable_list fh.variable_list [] ""
    (by simp) hvars harr
  simpa using hloop

/-- Claim C10 — for a metadata `host` header paired with a source `module` or
`scheme` header, compare performs no arity, per-variable or dimension checks
and returns the empty diagnostic, whatever the two variable lists are. -/
theorem compare_host_module_scheme_no_checks (mh : MHeader) (fh : FHeader)
    (hm : mh.header_type = "host")
    (hf : fh.header_type = "module" ∨ fh.header_type = "scheme") :
    compare_fheader_to_mheader mh fh = .ok "" := by
  simp only [compare_fheader_to_mheader, hm]
  rcases hf with hf | hf <;> rw [hf] <;>
    rw [if_pos (by decide), if_neg (by decide)]

set_option maxHeartbeats 1000000 in
/-- Claim C4 (amended) — for a scheme pair whose two metadata variables are
swapped relative to the source order (names matching case-insensitively and
distinct, no array references), compare reports one "out of order" diagnostic
per displaced variable — two in total, each naming that variable — and keeps
scanning; the order is not corrected. -/
theorem compare_swapped_pair_two_diagnostics (ttl sctx : String)
    (cf : Option String) (hv : Bool) (mv1 mv2 : MVar) (fv1 fv2 : FVar)
    (h1 : mv1.local_name = fv1.local_name)
    (h2 : mv2.local_name = fv2.local_name)
    (hd : py_lower fv1.local_name ≠ py_lower fv2.local_name)
    (ha1 : is_arrayspec mv1.local_name = false)
    (ha2 : is_arrayspec mv2.local_name = false) :
    compare_fheader_to_mheader
      { title := ttl, header_type := "scheme", variable_list := [mv2, mv1],
        context_filename := cf, start_context := sctx }
      { title := ttl, header_type := "scheme", variable_list := [fv1, fv2],
        has_variables := hv } =
      .ok (("Out of order argument, " ++ mv2.local_name ++ " in " ++ ttl) ++
        "\n" ++
        ("Out of order argument, " ++ mv1.local_name ++ " in " ++ ttl)) := by
  have hfind2 : find_var_in_list mv2.local_name [fv1, fv2] = some (fv2, 1) := by
    have h := find_var_in_list_at mv2.local_name [fv1] fv2 []
      (by
        intro p hp
        simp only [List.mem_singleton] at hp
        subst hp
        rw [h2]
        exact hd)
      (by rw [h2])
    simpa using h
  have hfind1 : find_var_in_list mv1.local_name [fv1, fv2] = some (fv1, 0) := by
    have h := find_var_in_list_at mv1.local_name [] fv1 [fv2]
      (by intro p hp; simp at hp)
      (by rw [h1])
    simpa using h
  simp only [compare_fheader_to_mheader]
  rw [if_neg (by decide)]
  have hc : List.countP
      (fun mvar => is_arrayspec (mvar.get_prop_value "local_name"))
      [mv2, mv1] = 0 := by
    simp [List.countP_cons, mvar_get_local_name, ha1, ha2]
  rw [hc]
  simp only [List.length_cons, List.length_nil, Nat.zero_add]
  simp only [compare_var_loop]
  rw [compare_var_step_order "scheme" "scheme" ttl [fv1, fv2] 2 0 1 mv2 fv2 _
    hfind2 (by omega) (by omega) (by decide)]
  rw [compare_var_step_order "scheme" "scheme" ttl [fv1, fv2] 2 1 0 mv1 fv1 _
    hfind1 (by omega) (by omega) (by decide)]
  rw [show arity_check "scheme" ttl (2 - 0) 2 = "" from rfl]
  rw [add_error_nil]
  have hne2 : ("Out of order argument, " ++ mv2.local_name ++ " in " ++ ttl) ≠
      "" :=
    append_ne_empty_left _ (append_ne_empty_right _ (by decide))
  unfold add_error
  rw [if_pos hne2]

/-- Claim C6 — arity reconciliation: for scheme pairs the non-array-subscript
metadata count must equal the source count (any inequality is flagged), a
larger source count produces the count-mismatch diagnostic blaming the
metadata header (it heads compare's report), and for module/host/ddt tables a
larger source count produces no arity diagnostic. -/
theorem arity_reconciliation (mh : MHeader) (fh : FHeader) :
    (mh.header_type = "scheme" → fh.header_type = "scheme" →
      mh.variable_list.length - mh.variable_list.countP
          (fun mvar => is_arrayspec (mvar.get_prop_value "local_name")) <
        fh.variable_list.length →
      ∃ rest, compare_fheader_to_mheader mh fh =
        .ok (("Variable mismatch in " ++ mh.title ++
          ", variables missing from metadata header.") ++ rest)) ∧
    (∀ (title : String) (mlen flen : Nat), mlen ≠ flen →
      arity_check "scheme" title mlen flen ≠ "") ∧
    (∀ (fht title : String) (mlen flen : Nat),
      fht ∈ _EXTRA_VARIABLE_TABLE_TYPES → flen > mlen →
      arity_check fht title mlen flen = "") := by
  refine ⟨?_, ?_, ?_⟩
  · intro hmht hfht hlt
    simp only [compare_fheader_to_mheader, hmht, hfht]
    rw [if_neg (by decide)]
    have harity : arity_check "scheme" mh.title
        (mh.variable_list.length - mh.variable_list.countP
          (fun mvar => is_arrayspec (mvar.get_prop_value "local_name")))
        fh.variable_list.length =
        ("Variable mismatch in " ++ mh.title ++
          ", variables missing from metadata header.") := by
      unfold arity_check
      rw [if_neg (by omega), if_neg (by decide), if_pos hlt]
      exact add_error_nil _
    rw [harity]
    obtain ⟨s, hs⟩ := compare_var_loop_ext "scheme" "scheme" mh.title
      fh.variable_list fh.variable_list.length mh.variable_list 0
      ("Variable mismatch in " ++ mh.title ++
        ", variables missing from metadata header.")
    exact ⟨s, by rw [hs]⟩
  · intro title mlen flen hne
    unfold arity_check
    rw [if_neg hne, if_neg (by decide)]
    split
    · rw [add_error_nil]
      exact append_ne_empty_right _ (by decide)
    · rw [add_error_nil]
      exact append_ne_empty_right _ (by decide)
  · intro fht title mlen flen hmem hgt
    unfold arity_check
    by_cases heq : mlen = flen
    · rw [if_pos heq]
    · rw [if_neg heq, if_pos hmem, if_pos hgt]


theorem register_host_header_known_mono (t : String)
    (md : List (String × MHeader)) (kd : List String) (fn : String)
    (h : MHeader) (md' : List (String × MHeader)) (kd' : List String)
    (hok : register_host_header md kd fn h = .ok (md', kd')) (ht : t ∈ kd) :
    t ∈ kd' := by
  unfold register_host_header at hok
  cases hl : lookup_header h.title md with
  | none =>
      rw [hl] at hok
      simp only [Except.ok.injEq, Prod.mk.injEq] at hok
      obtain ⟨-, hkd⟩ := hok
      rw [← hkd]
      split
      · exact List.mem_append_left _ ht
      · exact ht
  | some oh => rw [hl] at hok; exact absurd hok (by simp)

theorem register_host_header_ddt (md : List (String × MHeader))
    (kd : List String) (fn : String) (h : MHeader)
    (md' : List (String × MHeader)) (kd' : List String)
    (hok : register_host_header md kd fn h = .ok (md', kd'))
    (hddt : h.header_type = "ddt") : h.title ∈ kd' := by
  unfold register_host_header at hok
  cases hl : lookup_header h.title md with
  | none =>
      rw [hl] at hok
      simp only [Except.ok.injEq, Prod.mk.injEq] at hok
      obtain ⟨-, hkd⟩ := hok
      rw [← hkd, if_pos hddt]
      exact List.mem_append_right _ (List.mem_singleton_self _)
  | some oh => rw [hl] at hok; exact absurd hok (by simp)

theorem register_host_headers_known_mono (t : String) (fn : String) :
    ∀ (hs : List MHeader) (st st' : List (String × MHeader) × List String),
      register_host_headers st fn hs = .ok st' → t ∈ st.2 → t ∈ st'.2 := by
  intro hs
  induction hs with
  | nil =>
      intro st st' hok ht
      simp only [register_host_headers, Except.ok.injEq] at hok
      rw [← hok]
      exact ht
  | cons h rest ih =>
      intro st st' hok ht
      simp only [register_host_headers] at hok
      cases hr : register_host_header st.1 st.2 fn h with
      | error e => rw [hr] at hok; exact absurd hok (by simp)
      | ok st1 =>
          rw [hr] at hok
          exact ih st1 st' hok
            (register_host_header_known_mono t st.1 st.2 fn h st1.1 st1.2 hr
              ht)

theorem register_scheme_header_known_mono (t : String) (st : SchemeState)
    (fn : String) (h : MHeader) (st' : SchemeState)
    (hok : register_scheme_header st fn h = .ok st')
    (ht : t ∈ st.known_ddts) : t ∈ st'.known_ddts := by
  unfold register_scheme_header at hok
  cases hl : lookup_header h.title st.header_dict with
  | none =>
      rw [hl] at hok
      simp only [Except.ok.injEq] at hok
      rw [← hok]
      simp only
      split
      · exact List.mem_append_left _ ht
      · exact ht
  | some oh => rw [hl] at hok; exact absurd hok (by simp)

theorem register_scheme_header_ddt (st : SchemeState) (fn : String)
    (h : MHeader) (st' : SchemeState)
    (hok : register_scheme_header st fn h = .ok st')
    (hddt : h.header_type = "ddt") : h.title ∈ st'.known_ddts := by
  unfold register_scheme_header at hok
  cases hl : lookup_header h.title st.header_dict with
  | none =>
      rw [hl] at hok
      simp only [Except.ok.injEq] at hok
      rw [← hok]
      simp only
      rw [if_pos hddt]
      exact List.mem_append_right _ (List.mem_singleton_self _)
  | some oh => rw [hl] at hok; exact absurd hok (by simp)

theorem register_scheme_headers_known_mono (t : String) (fn : String) :
    ∀ (hs : List MHeader) (st st' : SchemeState),
      register_scheme_headers st fn hs = .ok st' →
      t ∈ st.known_ddts → t ∈ st'.known_ddts := by
  intro hs
  induction hs with
  | nil =>
      intro st st' hok ht
      simp only [register_scheme_headers, Except.ok.injEq] at hok
      rw [← hok]
      exact ht
  | cons h rest ih =>
      intro st st' hok ht
      simp only [register_scheme_headers] at hok
      cases hr : register_scheme_header st fn h with
      | error e => rw [hr] at hok; exact absurd hok (by simp)
      | ok st1 =>
          rw [hr] at hok
          exact ih st1 st' hok
            (register_scheme_header_known_mono t st fn h st1 hr ht)

theorem parse_host_files_trace_mem (t : String) :
    ∀ (files : List PFile) (md : List (String × MHeader)) (kd : List String)
      (final : List (String × MHeader) × List String)
      (tr : List (String × List String)),
      t ∈ kd →
      parse_host_model_files_from md kd files = .ok (final, tr) →
      ∀ e ∈ tr, t ∈ e.2 := by
  intro files
  induction files with
  | nil =>
      intro md kd final tr ht hok e he
      simp only [parse_host_model_files_from, Except.ok.injEq,
        Prod.mk.injEq] at hok
      obtain ⟨-, htr⟩ := hok
      rw [← htr] at he
      simp at he
  | cons f rest ih =>
      intro md kd final tr ht hok e he
      simp only [parse_host_model_files_from] at hok
      split at hok
      · exact absurd hok (by simp)
      split at hok
      · exact absurd hok (by simp)
      rename_i scr1 st1 hr
      split at hok
      · exact absurd hok (by simp)
      rename_i scr2 final0 tr0 hp
      simp only [Except.ok.injEq, Prod.mk.injEq] at hok
      obtain ⟨-, htr⟩ := hok
      rw [← htr] at he
      cases he with
      | head => exact ht
      | tail _ hmem =>
          exact ih st1.1 st1.2 final0 tr0
            (register_host_headers_known_mono t f.filename f.mheaders
              (md, kd) st1 hr ht)
            hp e hmem

theorem parse_scheme_files_trace_mem (t : String) :
    ∀ (files : List PFile) (st : SchemeState) (final : SchemeState)
      (tr : List (String × List String)),
      t ∈ st.known_ddts →
      parse_scheme_files_from st files = .ok (final, tr) →
      ∀ e ∈ tr, t ∈ e.2 := by
  intro files
  induction files with
  | nil =>
      intro st final tr ht hok e he
      simp only [parse_scheme_files_from, Except.ok.injEq,
        Prod.mk.injEq] at hok
      obtain ⟨-, htr⟩ := hok
      rw [← htr] at he
      simp at he
  | cons f rest ih =>
      intro st final tr ht hok e he
      simp only [parse_scheme_files_from] at hok
      split at hok
      · exact absurd hok (by simp)
      split at hok
      · exact absurd hok (by simp)
      rename_i scr1 st1 hr
      split at hok
      · exact absurd hok (by simp)
      rename_i scr2 final0 tr0 hp
      simp only [Except.ok.injEq, Prod.mk.injEq] at hok
      obtain ⟨-, htr⟩ := hok
      rw [← htr] at he
      cases he with
      | head => exact ht
      | tail _ hmem =>
          exact ih st1 final0 tr0
            (register_scheme_headers_known_mono t f.filename f.mheaders
              st st1 hr ht)
            hp e hmem

theorem parse_scheme_files_first_trace (file : PFile) (rest : List PFile)
    (final : SchemeState) (tr : List (String × List String))
    (hok : parse_scheme_files (file :: rest) = .ok (final, tr)) :
    ∃ tl, tr = (file.filename, ([] : List String)) :: tl := by
  unfold parse_scheme_files at hok
  simp only [parse_scheme_files_from] at hok
  split at hok
  · exact absurd hok (by simp)
  split at hok
  · exact absurd hok (by simp)
  split at hok
  · exact absurd hok (by simp)
  rename_i scr2 final0 tr0 hp
  simp only [Except.ok.injEq, Prod.mk.injEq] at hok
  obtain ⟨-, htr⟩ := hok
  exact ⟨tr0, htr.symm⟩

/-- Claim C2 (amended) — a registered ddt title is threaded into the
known-derived-types list passed to every subsequently processed file of the
same pass (host files see earlier host ddts, scheme files see earlier scheme
ddts, and registering a ddt puts its title in the pass's list), but the
scheme pass starts from an empty list, so the first scheme file's parse
receives `[]` regardless of the host files. -/
theorem known_ddts_threaded_within_pass (t : String) :
    (∀ (md : List (String × MHeader)) (kd : List String) (files : List PFile)
       (final : List (String × MHeader) × List String)
       (tr : List (String × List String)),
       t ∈ kd → parse_host_model_files_from md kd files = .ok (final, tr) →
       ∀ e ∈ tr, t ∈ e.2) ∧
    (∀ (st : SchemeState) (files : List PFile) (final : SchemeState)
       (tr : List (String × List String)),
       t ∈ st.known_ddts → parse_scheme_files_from st files = .ok (final, tr) →
       ∀ e ∈ tr, t ∈ e.2) ∧
    (∀ (md : List (String × MHeader)) (kd : List String) (fn : String)
       (h : MHeader) (md' : List (String × MHeader)) (kd' : List String),
       register_host_header md kd fn h = .ok (md', kd') →
       h.header_type = "ddt" → h.title ∈ kd') ∧
    (∀ (st : SchemeState) (fn : String) (h : MHeader) (st' : SchemeState),
       register_scheme_header st fn h = .ok st' →
       h.header_type = "ddt" → h.title ∈ st'.known_ddts) ∧
    (∀ (file : PFile) (rest : List PFile) (final : SchemeState)
       (tr : List (String × List String)),
       parse_scheme_files (file :: rest) = .ok (final, tr) →
       ∃ tl, tr = (file.filename, ([] : List String)) :: tl) := by
  refine ⟨?_, ?_, ?_, ?_, ?_⟩
  · intro md kd files final tr ht hok
    exact parse_host_files_trace_mem t files md kd final tr ht hok
  · intro st files final tr ht hok
    exact parse_scheme_files_trace_mem t files st final tr ht hok
  · intro md kd fn h md' kd' hok hddt
    exact register_host_header_ddt md kd fn h md' kd' hok hddt
  · intro st fn h st' hok hddt
    exact register_scheme_header_ddt st fn h st' hok hddt
  · intro file rest final tr hok
    exact parse_scheme_files_first_trace file rest final tr hok

/-- Claim C2 counterexample — a run whose host file registers the ddt
`state_type` (it ends up in the host pass's known list), while the known-type
sequence passed to the later scheme file's metadata parse is `[]`, which does
not contain `state_type`. -/
theorem host_ddt_absent_from_scheme_parse :
    capgen_parse [hostDdtFile] [schemeUserFile] =
      .ok ((([("state_type", stateTypeMH)], ["state_type"]),
            [("host.meta", [])]),
           ({ meta_headers := [schemeRunMH],
              header_dict := [("scheme_run", schemeRunMH)],
              known_ddts := [] },
            [("scheme.meta", [])])) ∧
    "state_type" ∉ ([] : List String) :=
  ⟨rfl, by simp⟩

/-- Claim C3 (amended) — titles are unique keys within each pass separately:
registering a host header whose title is already in the host dict, or a
scheme header whose title is already in the scheme dict, fails with the
duplicate-header error naming the original file. -/
theorem duplicate_title_same_pass_rejected (md : List (String × MHeader))
    (kd : List String) (fn : String) (h h' : MHeader) (st : SchemeState)
    (oh oh' : MHeader) :
    (lookup_header h.title md = some oh →
      register_host_header md kd fn h =
        .error (.duplicateHeader h.header_type h.title fn
          oh.context_filename)) ∧
    (lookup_header h'.title st.header_dict = some oh' →
      register_scheme_header st fn h' =
        .error (.duplicateHeader h'.header_type h'.title fn
          oh'.context_filename)) := by
  constructor
  · intro hl
    unfold register_host_header
    simp only [hl]
  · intro hl
    unfold register_scheme_header
    simp only [hl]

/-- Claim C3 counterexample — a host file and a scheme file both register the
title `foo` in one run, and the run succeeds: host and scheme passes keep
separate duplicate-checking dicts, so a cross-pass title collision is not a
duplicate-header error. -/
theorem cross_pass_duplicate_title_accepted :
    hostFileFoo.mheaders.map MHeader.title = ["foo"] ∧
    schemeFileFoo.mheaders.map MHeader.title = ["foo"] ∧
    except_ok (capgen_parse [hostFileFoo] [schemeFileFoo]) = true :=
  ⟨rfl, rfl, rfl⟩

/-- Claim C1 — per-dimension comparison after range splitting and
lower-casing.  Equal normalized dimensions and a bare `:` on the source side
produce no diagnostic, as the claim states; but for source `km` vs metadata
`km2` the code also produces no diagnostic: the source's comparison
`comp = fdim in (':', fdim)` is a tautology, so the dimension-mismatch branch
is dead code and no same-rank mismatch is ever flagged. -/
theorem dims_comp_dimension_mismatch_silent :
    dims_comp (mkMVar "v" "real" ["im:jm"]) (mkFVar "v" "real" ["IM:JM"]) "t" =
      "" ∧
    dims_comp (mkMVar "v" "real" ["levs"]) (mkFVar "v" "real" [":"]) "t" =
      "" ∧
    dims_comp (mkMVar "v" "real" ["km2"]) (mkFVar "v" "real" ["km"]) "t" =
      "" :=
  ⟨by decide, by decide, by decide⟩

/-- Claim C5 — a metadata variable whose local_name is an array-subscript
reference (`x(1)`) positioned before the end of the source list is reported
with a "no Fortran variable" diagnostic: the `fvar is None` check runs before
the array-reference skip, contradicting the claim (and the code's own
comments) that such entries produce no diagnostic. -/
theorem arrayref_in_range_reported_missing :
    compare_fheader_to_mheader arrayrefMH arrayrefFH =
      .ok "Variable mismatch in arr_host, no Fortran variable x(1)." := rfl

/-- Claim C4 counterexample — swapping the two variables of `swap_scheme`
yields two newline-separated "out of order" diagnostics, not exactly one. -/
theorem swapped_pair_not_single_diagnostic :
    compare_fheader_to_mheader swapMH swapFH =
      .ok ("Out of order argument, b in swap_scheme" ++ "\n" ++
           "Out of order argument, a in swap_scheme") ∧
    count_newlines ("Out of order argument, b in swap_scheme" ++ "\n" ++
      "Out of order argument, a in swap_scheme") + 1 = 2 :=
  ⟨rfl, by decide⟩

/-- Claim C7 counterexample — a scheme pair with equal header_type and
pointwise-identical variable lists whose single local_name is the
array-subscript reference `x(1)`: compare returns a non-empty diagnostic,
because the array reference is excluded from the metadata count only. -/
theorem identical_arrayspec_lists_flagged :
    identicalArrMH.header_type = identicalArrFH.header_type ∧
    List.Forall₂ fields_match identicalArrMH.variable_list
      identicalArrFH.variable_list ∧
    compare_fheader_to_mheader identicalArrMH identicalArrFH =
      .ok "Variable mismatch in t2, variables missing from metadata header." ∧
    ("Variable mismatch in t2, variables missing from metadata header." :
      String) ≠ "" := by
  refine ⟨rfl, ?_, rfl, by decide⟩
  exact List.Forall₂.cons ⟨rfl, rfl, rfl, rfl, rfl⟩ List.Forall₂.nil

theorem pop_header_none_iff (t : String) :
    ∀ (fhs : List FHeader),
      pop_header t fhs = none ↔ ∀ f ∈ fhs, f.title ≠ t := by
  intro fhs
  induction fhs with
  | nil => simp [pop_header]
  | cons f rest ih =>
      simp only [pop_header]
      by_cases hf : f.title = t
      · rw [if_pos hf]
        simp [hf]
      · rw [if_neg hf]
        cases hp : pop_header t rest with
        | some pr =>
            obtain ⟨g, rest'⟩ := pr
            constructor
            · intro h
              exact absurd h (by simp)
            · intro hall
              have h0 := ih.mpr
                (fun g' hg' => hall g' (List.mem_cons_of_mem f hg'))
              rw [hp] at h0
              exact absurd h0 (by simp)
        | none =>
            simp only [hp, List.forall_mem_cons]
            exact iff_of_true trivial ⟨hf, ih.mp hp⟩

theorem pop_header_perm (t : String) :
    ∀ (fhs : List FHeader) (g : FHeader) (rest : List FHeader),
      pop_header t fhs = some (g, rest) →
      g.title = t ∧ fhs.Perm (g :: rest) := by
  intro fhs
  induction fhs with
  | nil => intro g rest h; simp [pop_header] at h
  | cons f fr ih =>
      intro g rest h
      simp only [pop_header] at h
      by_cases hf : f.title = t
      · rw [if_pos hf] at h
        simp only [Option.some.injEq, Prod.mk.injEq] at h
        obtain ⟨rfl, rfl⟩ := h
        exact ⟨hf, List.Perm.refl _⟩
      · rw [if_neg hf] at h
        cases hp : pop_header t fr with
        | none => rw [hp] at h; simp at h
        | some pr =>
            obtain ⟨g', rest'⟩ := pr
            rw [hp] at h
            simp only [Option.some.injEq, Prod.mk.injEq] at h
            obtain ⟨rfl, rfl⟩ := h
            obtain ⟨hgt, hperm⟩ := ih g' rest' hp
            exact ⟨hgt, (hperm.cons f).trans (List.Perm.swap g' f rest')⟩

theorem pair_headers_ok_props (ff : String) :
    ∀ (mhs : List MHeader) (fhs : List FHeader)
      (assoc : List (MHeader × FHeader)) (leftover : List FHeader),
      pair_headers ff mhs fhs = .ok (assoc, leftover) →
      assoc.map Prod.fst = mhs ∧ (∀ p ∈ assoc, p.2.title = p.1.title) ∧
        fhs.Perm (assoc.map Prod.snd ++ leftover) := by
  intro mhs
  induction mhs with
  | nil =>
      intro fhs assoc leftover h
      simp only [pair_headers, Except.ok.injEq, Prod.mk.injEq] at h
      obtain ⟨rfl, rfl⟩ := h
      simp
  | cons m ms ih =>
      intro fhs assoc leftover h
      simp only [pair_headers] at h
      cases hp : pop_header m.title fhs with
      | none => simp only [hp] at h; exact absurd h (by simp)
      | some pr =>
          obtain ⟨fh, rest⟩ := pr
          simp only [hp] at h
          cases hq : pair_headers ff ms rest with
          | error e => simp only [hq] at h; exact absurd h (by simp)
          | ok pr2 =>
              obtain ⟨assoc', leftover'⟩ := pr2
              simp only [hq, Except.ok.injEq, Prod.mk.injEq] at h
              obtain ⟨rfl, rfl⟩ := h
              obtain ⟨hfst, htit, hperm⟩ := ih rest assoc' leftover' hq
              obtain ⟨hft, hfperm⟩ := pop_header_perm m.title fhs fh rest hp
              refine ⟨by simp [hfst], ?_, ?_⟩
              · intro p hp2
                cases hp2 with
                | head => exact hft
                | tail _ hmem => exact htit p hmem
              · simp only [List.map_cons, List.cons_append]
                exact hfperm.trans (hperm.cons fh)

theorem pair_headers_ok_iff (ff : String) :
    ∀ (mhs : List MHeader) (fhs : List FHeader),
      (mhs.map MHeader.title).Nodup →
      ((∃ r, pair_headers ff mhs fhs = .ok r) ↔
        ∀ m ∈ mhs, ∃ f ∈ fhs, f.title = m.title) := by
  intro mhs
  induction mhs with
  | nil =>
      intro fhs hnd
      exact iff_of_true ⟨([], fhs), rfl⟩ (by simp)
  | cons m ms ih =>
      intro fhs hnd
      simp only [List.map_cons, List.nodup_cons] at hnd
      obtain ⟨hm, hnd'⟩ := hnd
      simp only [pair_headers]
      cases hp : pop_header m.title fhs with
      | none =>
          constructor
          · intro ⟨r, hr⟩
            exact absurd hr (by simp)
          · intro hall
            obtain ⟨f, hf, ht⟩ := hall m (List.mem_cons_self m ms)
            exact absurd ht ((pop_header_none_iff m.title fhs).mp hp f hf)
      | some pr =>
          obtain ⟨fh, rest⟩ := pr
          obtain ⟨hft, hfperm⟩ := pop_header_perm m.title fhs fh rest hp
          constructor
          · intro ⟨r, hr⟩
            cases hq : pair_headers ff ms rest with
            | error e => simp only [hq] at hr; exact absurd hr (by simp)
            | ok pr2 =>
                have hrest := (ih rest hnd').mp ⟨pr2, hq⟩
                intro m' hm'
                cases hm' with
                | head =>
                    exact ⟨fh, hfperm.mem_iff.mpr (List.mem_cons_self fh rest),
                      hft⟩
                | tail _ hmem =>
                    obtain ⟨f, hf, ht⟩ := hrest m' hmem
                    exact ⟨f,
                      hfperm.mem_iff.mpr (List.mem_cons_of_mem fh hf), ht⟩
          · intro hall
            have hrest : ∀ m' ∈ ms, ∃ f ∈ rest, f.title = m'.title := by
              intro m' hm'
              obtain ⟨f, hf, ht⟩ := hall m' (List.mem_cons_of_mem m hm')
              have hmem := hfperm.mem_iff.mp hf
              cases hmem with
              | head =>
                  exfalso
                  apply hm
                  rw [← hft, ht]
                  exact List.mem_map_of_mem MHeader.title hm'
              | tail _ hmem' => exact ⟨f, hmem', ht⟩
            obtain ⟨r', hr'⟩ := (ih rest hnd').mpr hrest
            obtain ⟨assoc', leftover'⟩ := r'
            exact ⟨((m, fh) :: assoc', leftover'), by simp only [hr']⟩

theorem pair_headers_leftover_titles (ff : String) :
    ∀ (mhs : List MHeader) (fhs : List FHeader)
      (assoc : List (MHeader × FHeader)) (leftover : List FHeader),
      (fhs.map FHeader.title).Nodup →
      pair_headers ff mhs fhs = .ok (assoc, leftover) →
      ∀ f ∈ leftover, f.title ∉ mhs.map MHeader.title := by
  intro mhs
  induction mhs with
  | nil =>
      intro fhs assoc leftover hnd h f hf
      simp
  | cons m ms ih =>
      intro fhs assoc leftover hnd h f hf
      simp only [pair_headers] at h
      cases hp : pop_header m.title fhs with
      | none => simp only [hp] at h; exact absurd h (by simp)
      | some pr =>
          obtain ⟨fh, rest⟩ := pr
          simp only [hp] at h
          cases hq : pair_headers ff ms rest with
          | error e => simp only [hq] at h; exact absurd h (by simp)
          | ok pr2 =>
              obtain ⟨assoc', leftover'⟩ := pr2
              simp only [hq, Except.ok.injEq, Prod.mk.injEq] at h
              obtain ⟨rfl, rfl⟩ := h
              obtain ⟨hft, hfperm⟩ := pop_header_perm m.title fhs fh rest hp
              have hndp : ((fh :: rest).map FHeader.title).Nodup :=
                (hfperm.map FHeader.title).nodup_iff.mp hnd
              simp only [List.map_cons, List.nodup_cons] at hndp
              obtain ⟨hfh, hndrest⟩ := hndp
              have hrec := ih rest assoc' leftover' hndrest hq f hf
              simp only [List.map_cons, List.mem_cons]
              intro hor
              cases hor with
              | inl heq =>
                  apply hfh
                  rw [hft, ← heq]
                  have hfl : f ∈ rest := by
                    have hprops :=
                      pair_headers_ok_props ff ms rest assoc' leftover' hq
                    exact (hprops.2.2.mem_iff.mpr
                      (List.mem_append_right _ hf))
                  exact List.mem_map_of_mem FHeader.title hfl
              | inr hmem => exact hrec hmem

theorem unmatched_loop_ne_empty (mf : String) :
    ∀ (l : List FHeader) (e s : String), e ≠ "" →
      unmatched_loop mf l e s ≠ "" := by
  intro l
  induction l with
  | nil => intro e s he; exact he
  | cons f r ih =>
      intro e s he
      simp only [unmatched_loop]
      split
      · exact ih _ _ (append_ne_empty_left _
          (append_ne_empty_left _ (append_ne_empty_left _
            (append_ne_empty_left _ (append_ne_empty_left _ he)))))
      · exact ih _ _ he

theorem unmatched_loop_empty_iff (mf : String) :
    ∀ (l : List FHeader) (s : String),
      unmatched_loop mf l "" s = "" ↔ ∀ f ∈ l, f.has_variables = false := by
  intro l
  induction l with
  | nil => intro s; simp [unmatched_loop]
  | cons f r ih =>
      intro s
      simp only [unmatched_loop]
      by_cases hv : f.has_variables
      · rw [if_pos hv]
        constructor
        · intro h
          exfalso
          apply unmatched_loop_ne_empty mf r _ "\n" _ h
          exact append_ne_empty_left _ (append_ne_empty_left _
            (append_ne_empty_left _ (append_ne_empty_right _ (by decide))))
        · intro hall
          exact absurd (hall f (List.mem_cons_self f r)) (by simp [hv])
      · rw [if_neg hv]
        simp only [List.forall_mem_cons]
        rw [ih s]
        simp [Bool.of_not_eq_true hv]

theorem unmatched_msg_empty_iff (mf : String) (l : List FHeader) :
    unmatched_msg mf l = "" ↔ ∀ f ∈ l, f.has_variables = false :=
  unmatched_loop_empty_iff mf l ""

/-- Claim C8 — with unique titles on both sides, the pairing phases succeed
exactly when every metadata title has a matching source header and every
unmatched source header has no declared variables; on success the association
pairs each metadata header (in order) with exactly one equally-titled source
header, and the matched headers plus the leftover are a permutation of the
source headers, so each source header is consumed at most once. -/
theorem header_pairing_characterization (ff mf : String) (mhs : List MHeader)
    (fhs : List FHeader)
    (hmnd : (mhs.map MHeader.title).Nodup)
    (hfnd : (fhs.map FHeader.title).Nodup) :
    ((∃ assoc leftover, pair_headers ff mhs fhs = .ok (assoc, leftover) ∧
        unmatched_msg mf leftover = "") ↔
      ((∀ m ∈ mhs, ∃ f ∈ fhs, f.title = m.title) ∧
       (∀ f ∈ fhs, (∀ m ∈ mhs, m.title ≠ f.title) →
         f.has_variables = false))) ∧
    (∀ (assoc : List (MHeader × FHeader)) (leftover : List FHeader),
      pair_headers ff mhs fhs = .ok (assoc, leftover) →
      assoc.map Prod.fst = mhs ∧ (∀ p ∈ assoc, p.2.title = p.1.title) ∧
      fhs.Perm (assoc.map Prod.snd ++ leftover)) := by
  constructor
  · constructor
    · rintro ⟨assoc, leftover, hok, hemp⟩
      constructor
      · exact (pair_headers_ok_iff ff mhs fhs hmnd).mp ⟨(assoc, leftover), hok⟩
      · intro f hfm hnom
        obtain ⟨hfst, htit, hperm⟩ :=
          pair_headers_ok_props ff mhs fhs assoc leftover hok
        have hmem := hperm.mem_iff.mp hfm
        cases List.mem_append.mp hmem with
        | inl hin =>
            obtain ⟨p, hpa, hpe⟩ := List.mem_map.mp hin
            exact absurd (by rw [← htit p hpa, hpe])
              (hnom p.1
                (by rw [← hfst]; exact List.mem_map_of_mem Prod.fst hpa))
        | inr hin =>
            exact (unmatched_msg_empty_iff mf leftover).mp hemp f hin
    · rintro ⟨hall, hunp⟩
      obtain ⟨⟨assoc, leftover⟩, hok⟩ :=
        (pair_headers_ok_iff ff mhs fhs hmnd).mpr hall
      refine ⟨assoc, leftover, hok, ?_⟩
      rw [unmatched_msg_empty_iff]
      intro f hf
      obtain ⟨hfst, htit, hperm⟩ :=
        pair_headers_ok_props ff mhs fhs assoc leftover hok
      have hfm : f ∈ fhs := hperm.mem_iff.mpr (List.mem_append_right _ hf)
      apply hunp f hfm
      intro m hmm heq
      have hnot := pair_headers_leftover_titles ff mhs fhs assoc leftover
        hfnd hok f hf
      apply hnot
      rw [← heq]
      exact List.mem_map_of_mem MHeader.title hmm
  · intro assoc leftover hok
    exact pair_headers_ok_props ff mhs fhs assoc leftover hok

/-- Claim C9 — once pairing and the leftover check pass, batch validation
accumulates the concatenated per-pair diagnostics `T`: when `T` is empty no
error is raised and the association is returned; otherwise one consistency
error is raised carrying `T`, an error count equal to the number of
newline-separated lines of `T` (newlines + 1), and a message that contains
`T` followed by both file names. -/
theorem consistency_error_accumulation (mhs : List MHeader)
    (fhs : List FHeader) (mf ff : String)
    (assoc : List (MHeader × FHeader)) (leftover : List FHeader) (T : String)
    (hpair : pair_headers ff mhs fhs = .ok (assoc, leftover))
    (hun : unmatched_msg mf leftover = "")
    (hcmp : concat_compare assoc = .ok T) :
    (T = "" → check_fortran_against_metadata mhs fhs mf ff = .ok assoc) ∧
    (T ≠ "" →
      check_fortran_against_metadata mhs fhs mf ff =
        .error (.consistency T (count_newlines T + 1) mf ff) ∧
      ∃ mid,
        (CapgenError.consistency T (count_newlines T + 1) mf ff).message =
          T ++ ("\n" ++ mid ++ (mf ++ (" to " ++ ff)))) := by
  constructor
  · intro hT
    unfold check_fortran_against_metadata
    simp only [hpair, hun, hcmp, hT]
    simp
  · intro hT
    constructor
    · unfold check_fortran_against_metadata
      simp only [hpair, hun, hcmp]
      rw [if_neg (by simp)]
      rw [if_pos hT]
    · exact ⟨toString (count_newlines T + 1) ++ " error" ++
        (if 1 < count_newlines T + 1 then "s" else "") ++ " found comparing ",
        by simp [CapgenError.message, String.append_assoc]⟩

theorem compare_identical_headers_empty_w :
    compare_fheader_to_mheader identMH identFH = .ok "" :=
  compare_identical_headers_empty identMH identFH rfl
    (List.Forall₂.cons ⟨rfl, rfl, rfl, rfl, rfl⟩
      (List.Forall₂.cons ⟨rfl, rfl, rfl, rfl, rfl⟩ List.Forall₂.nil))
    (by decide) (by decide)

theorem compare_host_module_scheme_no_checks_w :
    compare_fheader_to_mheader hostExcMH moduleExcFH = .ok "" :=
  compare_host_module_scheme_no_checks hostExcMH moduleExcFH rfl (Or.inl rfl)

theorem compare_swapped_pair_two_diagnostics_w :
    compare_fheader_to_mheader swapMH swapFH =
      .ok (("Out of order argument, " ++ "b" ++ " in " ++ "swap_scheme") ++
        "\n" ++
        ("Out of order argument, " ++ "a" ++ " in " ++ "swap_scheme")) :=
  compare_swapped_pair_two_diagnostics "swap_scheme" "" none true
    (mkMVar "a" "real" [] "in") (mkMVar "b" "real" [] "in")
    (mkFVar "a" "real" [] "in") (mkFVar "b" "real" [] "in")
    rfl rfl (by decide) (by decide) (by decide)

theorem arity_reconciliation_w :
    scenarioCMH.header_type = "scheme" ∧
    (∃ rest, compare_fheader_to_mheader scenarioCMH scenarioCFH =
      .ok (("Variable mismatch in " ++ scenarioCMH.title ++
        ", variables missing from metadata header.") ++ rest)) ∧
    arity_check "scheme" "t" 2 3 ≠ "" ∧
    arity_check "host" "t" 2 3 = "" :=
  ⟨rfl,
   (arity_reconciliation scenarioCMH scenarioCFH).1 rfl rfl (by decide),
   (arity_reconciliation scenarioCMH scenarioCFH).2.1 "t" 2 3 (by decide),
   (arity_reconciliation scenarioCMH scenarioCFH).2.2 "host" "t" 2 3
     (by decide) (by decide)⟩

theorem duplicate_title_same_pass_rejected_w :
    register_host_header [("foo", fooHostMH)] [] "dup2.meta" fooHostMH2 =
      .error (.duplicateHeader "module" "foo" "dup2.meta"
        (some "host_foo.meta")) ∧
    register_scheme_header ⟨[fooSchemeMH], [("foo", fooSchemeMH)], []⟩
      "dup2.meta" fooSchemeMH2 =
      .error (.duplicateHeader "scheme" "foo" "dup2.meta"
        (some "scheme_foo.meta")) := by
  have h := duplicate_title_same_pass_rejected [("foo", fooHostMH)] []
    "dup2.meta" fooHostMH2 fooSchemeMH2
    ⟨[fooSchemeMH], [("foo", fooSchemeMH)], []⟩ fooHostMH fooSchemeMH
  exact ⟨h.1 rfl, h.2 rfl⟩

theorem known_ddts_threaded_within_pass_w :
    "state_type" ∈ (("host.meta", ["state_type"]) :
      String × List String).2 ∧
    "state_type" ∈ (("scheme.meta", ["state_type"]) :
      String × List String).2 ∧
    stateTypeMH.title ∈ ["state_type"] ∧
    stateTypeMH.title ∈ (SchemeState.known_ddts
      ⟨[stateTypeMH], [("state_type", stateTypeMH)], ["state_type"]⟩) ∧
    (∃ tl, [("scheme.meta", ([] : List String))] =
      ("scheme.meta", ([] : List String)) :: tl) := by
  have h := known_ddts_threaded_within_pass "state_type"
  refine ⟨?_, ?_, ?_, ?_, ?_⟩
  · exact h.1 [] ["state_type"] [hostDdtFile]
      ([("state_type", stateTypeMH)], ["state_type", "state_type"])
      [("host.meta", ["state_type"])] (by decide) rfl
      ("host.meta", ["state_type"]) (by decide)
  · exact h.2.1 ⟨[], [], ["state_type"]⟩ [schemeUserFile]
      ⟨[schemeRunMH], [("scheme_run", schemeRunMH)], ["state_type"]⟩
      [("scheme.meta", ["state_type"])] (by decide) rfl
      ("scheme.meta", ["state_type"]) (by decide)
  · exact h.2.2.1 [] [] "host.meta" stateTypeMH
      [("state_type", stateTypeMH)] ["state_type"] rfl rfl
  · exact h.2.2.2.1 ⟨[], [], []⟩ "host.meta" stateTypeMH
      ⟨[stateTypeMH], [("state_type", stateTypeMH)], ["state_type"]⟩ rfl rfl
  · exact h.2.2.2.2 schemeUserFile []
      ⟨[schemeRunMH], [("scheme_run", schemeRunMH)], []⟩
      [("scheme.meta", [])] rfl

theorem header_pairing_characterization_w :
    List.map Prod.fst [(fooHostMH, fooHostFH)] = [fooHostMH] ∧
    [fooHostFH].Perm
      (List.map Prod.snd [(fooHostMH, fooHostFH)] ++ []) := by
  have h := (header_pairing_characterization "host_foo.F90" "host_foo.meta"
    [fooHostMH] [fooHostFH] (by decide) (by decide)).2
    [(fooHostMH, fooHostFH)] [] rfl
  exact ⟨h.1, h.2.2⟩

theorem consistency_error_accumulation_w :
    check_fortran_against_metadata [scenarioCMH] [scenarioCFH]
      "scheme_c.meta" "scheme_c.F90" =
      .error (.consistency
        "Variable mismatch in scheme_c, variables missing from metadata header."
        1 "scheme_c.meta" "scheme_c.F90") :=
  ((consistency_error_accumulation [scenarioCMH] [scenarioCFH]
      "scheme_c.meta" "scheme_c.F90" [(scenarioCMH, scenarioCFH)] []
      "Variable mismatch in scheme_c, variables missing from metadata header."
      rfl rfl rfl).2 (by decide)).1


end CcppCapgen
